import Mathlib

/-!
Verification of the vendor-adapter / filename-grammar core of the `roast`
repository (JVM catalog builder), shallowly embedded from
`src/jvm/vendor/graalvm.rs` and `src/jvm/vendor/semeru.rs`.

Strings are embedded as `List Char`.  The Rust regular expressions are
embedded as backtracking parser combinators whose structure mirrors the
regex piece by piece: literal pieces become `matchLit`, alternations
become `matchAlts` (which retries later alternatives when the continuation
fails, i.e. full backtracking), optional groups become `matchOptGroup`,
and greedy repetitions (`*`, `+`, `{m,n}`) become `repFrom` / `repAtMost`
(greedy, longest first, with backtracking).  Network collaborators
(`github::list_releases`, `HTTP::get_text`) are passed in as explicit
function arguments.
-/

/-- Strings of the embedded program. -/
abbrev Str := List Char

/-- Convert a Lean string literal to the embedded string type. -/
def str (s : String) : Str := s.data

/-- Match a literal piece of a regular expression and continue. -/
def matchLit : Str → Str → (Str → Option α) → Option α
  | [], s, k => k s
  | _ :: _, [], _ => none
  | c :: l, d :: s, k => if c = d then matchLit l s k else none

/-- Match an alternation `(t₁|t₂|…)`, capturing the token: alternatives are
tried in order and a later alternative is tried whenever the continuation
fails (backtracking). -/
def matchAlts : List Str → Str → (Str → Str → Option α) → Option α
  | [], _, _ => none
  | t :: ts, s, k =>
    (matchLit t s (fun r => k t r)) <|> matchAlts ts s k

/-- Match an optional group `(?:X)?`: try `X` first (greedy), fall back to
skipping it when the continuation fails. -/
def matchOptGroup (m : Str → (Str → Option α) → Option α) (s : Str)
    (k : Str → Option α) : Option α :=
  (m s k) <|> k s

/-- Greedy unbounded repetition `C*` of a character class `p`: consume as
many `p`-characters as possible, backtracking one character at a time when
the continuation fails.  The consumed characters are passed to the
continuation together with the rest of the input. -/
def repFrom (p : Char → Bool) : Str → (Str → Str → Option α) → Option α
  | [], k => k [] []
  | c :: s, k =>
    if p c then (repFrom p s (fun t r => k (c :: t) r)) <|> k [] (c :: s)
    else k [] (c :: s)

/-- Greedy bounded repetition `C{0,n}` of a character class `p` with
backtracking, as in `repFrom`. -/
def repAtMost (p : Char → Bool) : Nat → Str → (Str → Str → Option α) → Option α
  | 0, s, k => k [] s
  | _ + 1, [], k => k [] []
  | n + 1, c :: s, k =>
    if p c then (repAtMost p n s (fun t r => k (c :: t) r)) <|> k [] (c :: s)
    else k [] (c :: s)

/-- Exactly one character of a class `p` (regex `C{1}`). -/
def matchOne (p : Char → Bool) : Str → (Str → Str → Option α) → Option α
  | [], _ => none
  | c :: s, k => if p c then k [c] s else none

/-- The character class `[0-9+.]` of the GraalVM CE version field. -/
def isVerChar (c : Char) : Bool := c.isDigit || c == '+' || c == '.'

/-- The regex `.` metacharacter of the Rust regex crate: any character
except a newline. -/
def dotChar (c : Char) : Bool := !(c == '\n')

/-- Rust's `str::contains` for a literal pattern: some contiguous
substring of `hay` equals `needle`. -/
def strContains : Str → Str → Bool
  | [], needle => needle.isEmpty
  | c :: t, needle => needle.isPrefixOf (c :: t) || strContains t needle

/-- Rust's `str::trim`: remove leading and trailing whitespace. -/
def trimStr (s : Str) : Str :=
  ((s.dropWhile Char.isWhitespace).reverse.dropWhile Char.isWhitespace).reverse

/-- Modelled from the spec: an asset of the external Release Source
(`github::GitHubAsset`; the `github` module is not part of the shown
source): a name and a download URL. -/
structure GitHubAsset where
  name : Str
  browser_download_url : Str
deriving DecidableEq, Repr

/-- Modelled from the spec: a release of the external Release Source
(`github::GitHubRelease`): a tag name, a prerelease flag and assets. -/
structure GitHubRelease where
  tag_name : Str
  prerelease : Bool
  assets : List GitHubAsset
deriving DecidableEq, Repr

/-- Modelled from the spec: the catalog entry type `JvmData` (defined in
`src/jvm`, not among the shown sources); the field set is the
CatalogEntry attribute list of the spec, with `checksum`, `checksum_url`
and `features` optional.  Equality is structural (the Rust type derives
`Eq`/`Hash`, per the spec's deduplication contract). -/
structure JvmData where
  architecture : Str
  checksum : Option Str
  checksum_url : Option Str
  features : Option (List Str)
  filename : Str
  file_type : Str
  image_type : Str
  java_version : Str
  jvm_impl : Str
  os : Str
  release_type : Str
  url : Str
  vendor : Str
  version : Str
deriving DecidableEq, Repr

/-- Modelled from the spec: `normalize_architecture` (defined in
`src/jvm/vendor`, not among the shown sources).  A pure total function
collapsing equivalent raw architecture tokens to one canonical token;
the exact canonical alphabet is an implementation choice, represented
here by collapsing the x86-64 spellings and passing other tokens
through. -/
def normalize_architecture (a : Str) : Str :=
  if a = str ("amd64") || a = str ("x64") || a = str ("x86-64") || a = str ("x86_64") then
    str ("x86_64")
  else a

/-- Modelled from the spec: `normalize_os`, a pure total function
collapsing equivalent raw OS tokens ("darwin"/"mac"/"macos") to one
canonical token and passing other tokens through. -/
def normalize_os (o : Str) : Str :=
  if o = str ("darwin") || o = str ("mac") || o = str ("macos") then str ("macosx")
  else o

/-- Modelled from the spec: `normalize_version`, a pure total function on
version strings; modelled as the identity on the canonical version
string. -/
def normalize_version (v : Str) : Str := v

namespace GraalVM

/-- The raw filename metadata of `graalvm.rs` (struct `FileNameMeta`). -/
structure FileNameMeta where
  arch : Str
  ext : Str
  java_version : Str
  os : Str
  version : Str
deriving DecidableEq, Repr

/-- The `([0-9+.]{2,})\.(zip|tar\.gz)$` tail of the CE regex, with the
already-captured fields as parameters. -/
def ceStageVer (jv os arch : Str) (s : Str) : Option FileNameMeta :=
  repFrom isVerChar s fun ver s10 =>
  if 2 ≤ ver.length then
    matchLit (str (".")) s10 fun s11 =>
    matchAlts [str ("zip"), str ("tar.gz")] s11 fun ext s12 =>
    if s12.isEmpty then
      some { arch := arch, ext := ext, java_version := jv, os := os, version := ver }
    else none
  else none

/-- The `(aarch64|amd64)-` stage of the CE regex. -/
def ceStageArch (jv os : Str) (s : Str) : Option FileNameMeta :=
  matchAlts [str ("aarch64"), str ("amd64")] s fun arch s8 =>
  matchLit (str ("-")) s8 fun s9 => ceStageVer jv os arch s9

/-- The `(linux|darwin|windows)-` stage of the CE regex. -/
def ceStageOs (jv : Str) (s : Str) : Option FileNameMeta :=
  matchAlts [str ("linux"), str ("darwin"), str ("windows")] s fun os s6 =>
  matchLit (str ("-")) s6 fun s7 => ceStageArch jv os s7

/-- The `java([0-9]{1,2})-` stage of the CE regex and its tail. -/
def ceParseAfter (s : Str) : Option FileNameMeta :=
  matchLit (str ("java")) s fun s3 =>
  repAtMost Char.isDigit 2 s3 fun jv s4 =>
  if 1 ≤ jv.length then
    matchLit (str ("-")) s4 fun s5 => ceStageOs jv s5
  else none

/-- The core of the regex
`^graalvm-ce-(?:complete-)?java([0-9]{1,2})-(linux|darwin|windows)-(aarch64|amd64)-([0-9+.]{2,})\.(zip|tar\.gz)$`
of `meta_from_name_ce`, as a backtracking parser. -/
def ceParse (name : Str) : Option FileNameMeta :=
  matchLit (str ("graalvm-ce-")) name fun s1 =>
  matchOptGroup (matchLit (str ("complete-"))) s1 ceParseAfter

/-- `meta_from_name_ce` of `graalvm.rs`: parse a GraalVM CE filename,
reporting the source's error message on a regex mismatch. -/
def meta_from_name_ce (name : Str) : Except Str FileNameMeta :=
  match ceParse name with
  | some m => .ok m
  | none => .error (str ("regular expression did not match name: ") ++ name)

/-- The core of the regex
`^graalvm-community-jdk-([0-9]{1,2}\.[0-9]{1}\.[0-9]{1,3})_(linux|macos|windows)-(aarch64|x64)_bin\.(zip|tar\.gz)$`
of `meta_from_name_community`, as a backtracking parser. -/
def communityParse (name : Str) : Option FileNameMeta :=
  matchLit (str ("graalvm-community-jdk-")) name fun s1 =>
  repAtMost Char.isDigit 2 s1 fun d1 s2 =>
  if 1 ≤ d1.length then
    matchLit (str (".")) s2 fun s3 =>
    matchOne Char.isDigit s3 fun d2 s4 =>
    matchLit (str (".")) s4 fun s5 =>
    repAtMost Char.isDigit 3 s5 fun d3 s6 =>
    if 1 ≤ d3.length then
      matchLit (str ("_")) s6 fun s7 =>
      matchAlts [str ("linux"), str ("macos"), str ("windows")] s7 fun os s8 =>
      matchLit (str ("-")) s8 fun s9 =>
      matchAlts [str ("aarch64"), str ("x64")] s9 fun arch s10 =>
      matchLit (str ("_bin.")) s10 fun s11 =>
      matchAlts [str ("zip"), str ("tar.gz")] s11 fun ext s12 =>
      if s12.isEmpty then
        some { arch := arch, ext := ext,
               java_version := d1 ++ str (".") ++ d2 ++ str (".") ++ d3,
               os := os,
               version := d1 ++ str (".") ++ d2 ++ str (".") ++ d3 }
      else none
    else none
  else none

/-- `meta_from_name_community` of `graalvm.rs`. -/
def meta_from_name_community (name : Str) : Except Str FileNameMeta :=
  match communityParse name with
  | some m => .ok m
  | none => .error (str ("regular expression did not match name: ") ++ name)

/-- The asset-inclusion predicate `include` of `graalvm.rs` (the Rust
function is called `include`, a Lean keyword). -/
def include_asset (asset : GitHubAsset) : Bool :=
  ((str ("graalvm-ce")).isPrefixOf asset.name
      || (str ("graalvm-community")).isPrefixOf asset.name)
    && ((str (".tar.gz")).isSuffixOf asset.name
      || (str (".zip")).isSuffixOf asset.name)

end GraalVM
namespace GraalVM

/-- `map_ce` of `graalvm.rs`: build a catalog entry for a GraalVM CE asset.
The checksum collaborator `HTTP::get_text` is passed in as `get_text`. -/
def map_ce (get_text : Str → Option Str) (asset : GitHubAsset) : Except Str JvmData :=
  let sha256_url := asset.browser_download_url ++ str (".sha256")
  let sha256 : Option Str :=
    match get_text sha256_url with
    | some body => some (str ("sha256:") ++ trimStr body)
    | none => none
  match meta_from_name_ce asset.name with
  | .error e => .error e
  | .ok filename_meta =>
    .ok { architecture := normalize_architecture filename_meta.arch,
          checksum := sha256,
          checksum_url := some sha256_url,
          features := none,
          filename := asset.name,
          file_type := filename_meta.ext,
          image_type := str ("jdk"),
          java_version := filename_meta.java_version,
          jvm_impl := str ("graalvm"),
          os := normalize_os filename_meta.os,
          release_type := str ("ga"),
          url := asset.browser_download_url,
          vendor := str ("graalvm"),
          version := normalize_version filename_meta.version ++ str ("+java")
            ++ filename_meta.java_version }

/-- `map_community` of `graalvm.rs` (note: unlike `map_ce`, the fetched
checksum body is not trimmed here). -/
def map_community (get_text : Str → Option Str) (asset : GitHubAsset) :
    Except Str JvmData :=
  let sha256_url := asset.browser_download_url ++ str (".sha256")
  let sha256sum : Option Str :=
    match get_text sha256_url with
    | some body => some (str ("sha256:") ++ body)
    | none => none
  match meta_from_name_community asset.name with
  | .error e => .error e
  | .ok filename_meta =>
    .ok { architecture := normalize_architecture filename_meta.arch,
          checksum := sha256sum,
          checksum_url := some sha256_url,
          features := none,
          filename := asset.name,
          file_type := filename_meta.ext,
          image_type := str ("jdk"),
          java_version := normalize_version filename_meta.version,
          jvm_impl := str ("graalvm"),
          os := normalize_os filename_meta.os,
          release_type := str ("ga"),
          url := asset.browser_download_url,
          vendor := str ("graalvm-community"),
          version := normalize_version filename_meta.version }

/-- `map_asset` of `graalvm.rs`: dispatch on the filename prefix. -/
def map_asset (get_text : Str → Option Str) (asset : GitHubAsset) :
    Except Str JvmData :=
  if (str ("graalvm-ce")).isPrefixOf asset.name then map_ce get_text asset
  else if (str ("graalvm-community")).isPrefixOf asset.name then
    map_community get_text asset
  else .error (str ("unknown asset: ") ++ asset.name)

/-- The entry list built by `map_release` of `graalvm.rs`: filter the
assets with the inclusion predicate, map each, and drop (after logging)
the assets whose mapping failed. -/
def releaseData (get_text : Str → Option Str) (release : GitHubRelease) :
    List JvmData :=
  (release.assets.filter include_asset).filterMap
    (fun asset => (map_asset get_text asset).toOption)

/-- `map_release` of `graalvm.rs` (always returns `Ok`). -/
def map_release (get_text : Str → Option Str) (release : GitHubRelease) :
    Except Str (List JvmData) :=
  .ok (releaseData get_text release)

/-- The flattened entry list `fetch_data` of `graalvm.rs` collects over
all releases (a `map_release` failure is absorbed as an empty list). -/
def collectData (get_text : Str → Option Str) (releases : List GitHubRelease) :
    List JvmData :=
  releases.flatMap (fun release =>
    match map_release get_text release with
    | .ok l => l
    | .error _ => [])

/-- `fetch_data` of `graalvm.rs`.  The release-listing collaborator's
result for the single slug `graalvm/graalvm-ce-builds` is `list_releases`;
the `&mut HashSet` parameter becomes a state-passing pair of the updated
set and the `Result` outcome. -/
def fetch_data (list_releases : Except Str (List GitHubRelease))
    (get_text : Str → Option Str) (jvm_data : Finset JvmData) :
    Finset JvmData × Except Str Unit :=
  match list_releases with
  | .error e => (jvm_data, .error e)
  | .ok releases => (jvm_data ∪ (collectData get_text releases).toFinset, .ok ())

end GraalVM

namespace Semeru

/-- The raw filename metadata of `semeru.rs` (struct `FileNameMeta`). -/
structure FileNameMeta where
  arch : Str
  image_type : Str
  os : Str
  ext : Str
deriving DecidableEq, Repr

/-- The eight-way architecture alternation of the Semeru non-rpm regex. -/
def otherArchAlts : List Str :=
  [str ("x64"), str ("x86-32"), str ("x86-64"), str ("x86_64"), str ("s390x"),
   str ("ppc64"), str ("ppc64le"), str ("aarch64")]

/-- The `.+\.(tar\.gz|zip|msi)$` final piece of the Semeru non-rpm regex,
with the already-captured fields as parameters. -/
def otherStageExt (image_type arch os : Str) (s : Str) : Option FileNameMeta :=
  repFrom dotChar s fun t s11 =>
  if 1 ≤ t.length then
    matchLit (str (".")) s11 fun s12 =>
    matchAlts [str ("tar.gz"), str ("zip"), str ("msi")] s12 fun ext s13 =>
    if s13.isEmpty then
      some { arch := arch, image_type := image_type, os := os, ext := ext }
    else none
  else none

/-- The `(?:.+_openj9-)?.+\.(tar\.gz|zip|msi)$` tail of the Semeru
non-rpm regex. -/
def otherStageTail (image_type arch os : Str) (s : Str) : Option FileNameMeta :=
  matchOptGroup
    (fun s k => repFrom dotChar s fun t r =>
      if 1 ≤ t.length then matchLit (str ("_openj9-")) r k else none)
    s (otherStageExt image_type arch os)

/-- The core of the regex
`^ibm-semeru-(?:open|certified)-(jre|jdk)_(x64|x86-32|x86-64|x86_64|s390x|ppc64|ppc64le|aarch64)_(aix|linux|mac|windows)_(?:.+_openj9-)?.+\.(tar\.gz|zip|msi)$`
of `meta_from_name_other`, as a backtracking parser. -/
def otherParse (name : Str) : Option FileNameMeta :=
  matchLit (str ("ibm-semeru-")) name fun s1 =>
  matchAlts [str ("open"), str ("certified")] s1 fun _ s2 =>
  matchLit (str ("-")) s2 fun s3 =>
  matchAlts [str ("jre"), str ("jdk")] s3 fun image_type s4 =>
  matchLit (str ("_")) s4 fun s5 =>
  matchAlts otherArchAlts s5 fun arch s6 =>
  matchLit (str ("_")) s6 fun s7 =>
  matchAlts [str ("aix"), str ("linux"), str ("mac"), str ("windows")] s7 fun os s8 =>
  matchLit (str ("_")) s8 fun s9 =>
  otherStageTail image_type arch os s9

/-- `meta_from_name_other` of `semeru.rs`. -/
def meta_from_name_other (name : Str) : Except Str FileNameMeta :=
  match otherParse name with
  | some m => .ok m
  | none => .error (str ("regular expression failed for name: ") ++ name)

/-- The core of the regex
`^ibm-semeru-(?:open|certified)-[0-9]+-(jre|jdk)-(.+)\.(x86_64|s390x|ppc64|ppc64le|aarch64)\.rpm$`
of `meta_from_name_rpm`, as a backtracking parser. -/
def rpmParse (name : Str) : Option FileNameMeta :=
  matchLit (str ("ibm-semeru-")) name fun s1 =>
  matchAlts [str ("open"), str ("certified")] s1 fun _ s2 =>
  matchLit (str ("-")) s2 fun s3 =>
  repFrom Char.isDigit s3 fun d s4 =>
  if 1 ≤ d.length then
    matchLit (str ("-")) s4 fun s5 =>
    matchAlts [str ("jre"), str ("jdk")] s5 fun image_type s6 =>
    matchLit (str ("-")) s6 fun s7 =>
    repFrom dotChar s7 fun t s8 =>
    if 1 ≤ t.length then
      matchLit (str (".")) s8 fun s9 =>
      matchAlts [str ("x86_64"), str ("s390x"), str ("ppc64"), str ("ppc64le"),
                 str ("aarch64")] s9 fun arch s10 =>
      matchLit (str (".rpm")) s10 fun s11 =>
      if s11.isEmpty then
        some { arch := arch, image_type := image_type, os := str ("linux"),
               ext := str ("rpm") }
      else none
    else none
  else none

/-- `meta_from_name_rpm` of `semeru.rs`. -/
def meta_from_name_rpm (name : Str) : Except Str FileNameMeta :=
  match rpmParse name with
  | some m => .ok m
  | none => .error (str ("regular expression failed for name: ") ++ name)

/-- `meta_from_name` of `semeru.rs`: dispatch on the `.rpm` suffix. -/
def meta_from_name (name : Str) : Except Str FileNameMeta :=
  if (str (".rpm")).isSuffixOf name then meta_from_name_rpm name
  else meta_from_name_other name

/-- The `[_-]openj9-(.*)$` piece of the tag regex of `version_from_tag`,
applied at one candidate split position: `version` is the part consumed by
the greedy `(.*)` so far and `s3` the rest.  The result is already the
combined string `{version}_openj9-{openj_version}` the Rust function
formats. -/
def tagCheck (version : Str) (s3 : Str) : Option Str :=
  match s3 with
  | [] => none
  | c :: s4 =>
    if c = '_' || c = '-' then
      matchLit (str ("openj9-")) s4 fun s5 =>
      repFrom dotChar s5 fun openj_version s6 =>
      if s6.isEmpty then some (version ++ str ("_openj9-") ++ openj_version)
      else none
    else none

/-- The `(.*)[_-]openj9-(.*)$` tail of the tag regex of
`version_from_tag`: the greedy `(.*)` makes the rightmost
`[_-]openj9-` occurrence win. -/
def tagTail (s : Str) : Option Str :=
  repFrom dotChar s tagCheck

/-- The core of the regex `^(?:jdk-?)?(.*)[_-]openj9-(.*)$` of
`version_from_tag`, as a backtracking parser. -/
def tagParse (tag : Str) : Option Str :=
  matchOptGroup
    (fun s k => matchLit (str ("jdk")) s fun s1 =>
      matchOptGroup (matchLit (str ("-"))) s1 k)
    tag tagTail

/-- `version_from_tag` of `semeru.rs`. -/
def version_from_tag (tag : Str) : Except Str Str :=
  match tagParse tag with
  | some v => .ok v
  | none => .error (str ("regular expression failed for tag: ") ++ tag)

/-- The asset-inclusion predicate `include` of `semeru.rs` (the Rust
function is called `include`, a Lean keyword). -/
def include_asset (asset : GitHubAsset) : Bool :=
  ((str (".zip")).isSuffixOf asset.name
      || (str (".tar.gz")).isSuffixOf asset.name
      || (str (".msi")).isSuffixOf asset.name
      || (str (".rpm")).isSuffixOf asset.name)
    && !(str (".tap.zip")).isSuffixOf asset.name
    && !strContains asset.name (str ("debugimage"))
    && !strContains asset.name (str ("testimage"))

/-- The first whitespace-separated token of a string
(`str::split_whitespace().next()` in `map_asset` of `semeru.rs`). -/
def firstToken (s : Str) : Option Str :=
  let t := (s.dropWhile Char.isWhitespace).takeWhile (fun c => !c.isWhitespace)
  if t.isEmpty then none else some t

/-- `map_asset` of `semeru.rs`: build a catalog entry for one asset of one
release.  The checksum collaborator `HTTP::get_text` is `get_text`. -/
def map_asset (get_text : Str → Option Str) (release : GitHubRelease)
    (asset : GitHubAsset) : Except Str JvmData :=
  let sha256_url := asset.browser_download_url ++ str (".sha256.txt")
  let sha256 : Option Str :=
    match get_text sha256_url with
    | some body =>
      match firstToken body with
      | some t => some (str ("sha256:") ++ trimStr t)
      | none => none
    | none => none
  match meta_from_name asset.name with
  | .error e => .error e
  | .ok filename_meta =>
    match version_from_tag release.tag_name with
    | .error e => .error e
    | .ok version =>
      .ok { architecture := normalize_architecture filename_meta.arch,
            checksum := sha256,
            checksum_url := some sha256_url,
            features :=
              if strContains asset.name (str ("-certified")) then
                some [str ("certified")]
              else none,
            filename := asset.name,
            file_type := filename_meta.ext,
            image_type := filename_meta.image_type,
            java_version := normalize_version version,
            jvm_impl := str ("openj9"),
            os := normalize_os filename_meta.os,
            release_type := str ("ga"),
            url := asset.browser_download_url,
            vendor := str ("semeru"),
            version := normalize_version version }

/-- The entry list built by `map_release` of `semeru.rs`. -/
def releaseData (get_text : Str → Option Str) (release : GitHubRelease) :
    List JvmData :=
  (release.assets.filter include_asset).filterMap
    (fun asset => (map_asset get_text release asset).toOption)

/-- `map_release` of `semeru.rs` (always returns `Ok`). -/
def map_release (get_text : Str → Option Str) (release : GitHubRelease) :
    Except Str (List JvmData) :=
  .ok (releaseData get_text release)

/-- The per-slug entry list of `fetch_data` of `semeru.rs`: drop
prerelease releases, then flat-map `map_release`, absorbing failures. -/
def slugData (get_text : Str → Option Str) (releases : List GitHubRelease) :
    List JvmData :=
  (releases.filter (fun release => !release.prerelease)).flatMap
    (fun release =>
      match map_release get_text release with
      | .ok l => l
      | .error _ => [])

/-- The feature-version labels `fetch_data` of `semeru.rs` iterates. -/
def versionLabels : List Str :=
  [str ("8"), str ("11"), str ("11-certified"), str ("16"), str ("17"),
   str ("17-certified"), str ("18"), str ("19"), str ("20"), str ("21"),
   str ("21-certified"), str ("22"), str ("23")]

/-- The repository slug polled for one feature-version label. -/
def slugFor (version : Str) : Str :=
  str ("ibmruntimes/semeru") ++ version ++ str ("-binaries")

/-- The slug loop of `fetch_data` of `semeru.rs`: on a release-listing
failure the error is returned and the remaining labels are skipped, while
the already-inserted data stays in the set (the Rust function mutates the
set in place and propagates the error with the `?` operator). -/
def fetchLoop (list_releases : Str → Except Str (List GitHubRelease))
    (get_text : Str → Option Str) :
    List Str → Finset JvmData → Finset JvmData × Except Str Unit
  | [], jvm_data => (jvm_data, .ok ())
  | v :: vs, jvm_data =>
    match list_releases (slugFor v) with
    | .error e => (jvm_data, .error e)
    | .ok releases =>
      fetchLoop list_releases get_text vs
        (jvm_data ∪ (slugData get_text releases).toFinset)

/-- `fetch_data` of `semeru.rs`. -/
def fetch_data (list_releases : Str → Except Str (List GitHubRelease))
    (get_text : Str → Option Str) (jvm_data : Finset JvmData) :
    Finset JvmData × Except Str Unit :=
  fetchLoop list_releases get_text versionLabels jvm_data

end Semeru

/-- Descending-length trial: try a continuation on the splits of `s` at
positions `j, j-1, …, 0`, longest first.  This is the search order of a
greedy repetition with backtracking; `repFrom`/`repAtMost` are proved equal
to it below. -/
def tryDesc (k : Str → Str → Option α) (s : Str) : Nat → Option α
  | 0 => k [] s
  | j + 1 => (k (s.take (j + 1)) (s.drop (j + 1))) <|> tryDesc k s j

/-- The documented GraalVM CE filename form
`graalvm-ce[-complete]-java<N>-<os>-<arch>-<version>.<ext>`. -/
def ceForm (complete : Bool) (n os arch version ext : Str) : Str :=
  str ("graalvm-ce-") ++ (if complete then str ("complete-") else []) ++
    str ("java") ++ n ++ str ("-") ++ os ++ str ("-") ++ arch ++ str ("-") ++
    version ++ str (".") ++ ext

/-- A Semeru non-rpm filename whose architecture segment is `arch` and
whose remaining segments are fixed well-formed tokens. -/
def otherForm (arch : Str) : Str :=
  str ("ibm-semeru-open-jdk_") ++ arch ++ str ("_linux_17.0.1.tar.gz")

/-- The documented Semeru release-tag form
`[jdk[-]]<version>[_-]openj9-<openj9Version>`: `pfx` is the optional
prefix (one of the empty string, `jdk`, or `jdk-` in the claims about
it). -/
def tagForm (pfx : Str) (version : Str) (sep : Char) (openj9Version : Str) : Str :=
  pfx ++ version ++ sep :: (str ("openj9-") ++ openj9Version)

/-- A catalog entry with its checksum field removed; used to state that a
checksum-fetch failure changes nothing but the checksum. -/
def clearChecksum (d : JvmData) : JvmData := { d with checksum := none }

section CombinatorLemmas

variable {α : Type}

lemma some_orElse_eq (a : α) (y : Option α) : (some a <|> y) = some a := rfl

lemma none_orElse_eq (y : Option α) : ((none : Option α) <|> y) = y := rfl

lemma orElse_assoc (a b c : Option α) :
    ((a <|> b) <|> c) = (a <|> (b <|> c)) := by
  cases a <;> rfl

lemma matchLit_append (l r : Str) (k : Str → Option α) :
    matchLit l (l ++ r) k = k r := by
  induction l with
  | nil => rfl
  | cons c l ih => simp [matchLit, ih]

lemma matchLit_some {l s : Str} {k : Str → Option α} {v : α}
    (h : matchLit l s k = some v) : ∃ r, s = l ++ r ∧ k r = some v := by
  induction l generalizing s with
  | nil => exact ⟨s, rfl, h⟩
  | cons c l ih =>
    cases s with
    | nil => simp [matchLit] at h
    | cons d s =>
      rw [matchLit] at h
      by_cases hc : c = d
      · rw [if_pos hc] at h
        obtain ⟨r, hr, hk⟩ := ih h
        exact ⟨r, by simp [hc, hr], hk⟩
      · rw [if_neg hc] at h
        exact absurd h (by simp)

lemma matchLit_none_incomp (l t r : Str) (k : Str → Option α)
    (h₁ : l.isPrefixOf t = false) (h₂ : t.isPrefixOf l = false) :
    matchLit l (t ++ r) k = none := by
  induction l generalizing t with
  | nil => simp [List.isPrefixOf] at h₁
  | cons c l ih =>
    cases t with
    | nil => simp [List.isPrefixOf] at h₂
    | cons d t =>
      simp only [List.isPrefixOf, Bool.and_eq_false_iff, beq_eq_false_iff_ne,
        ne_eq] at h₁ h₂
      rw [List.cons_append, matchLit]
      by_cases hc : c = d
      · subst hc
        rw [if_pos rfl]
        apply ih <;> simp_all
      · rw [if_neg hc]

lemma matchAlts_some {alts : List Str} {s : Str} {k : Str → Str → Option α}
    {v : α} (h : matchAlts alts s k = some v) :
    ∃ t r, t ∈ alts ∧ s = t ++ r ∧ k t r = some v := by
  induction alts with
  | nil => simp [matchAlts] at h
  | cons t ts ih =>
    rw [matchAlts] at h
    cases hm : matchLit t s (fun r => k t r) with
    | some w =>
      rw [hm, some_orElse_eq] at h
      obtain ⟨r, hr, hk⟩ := matchLit_some hm
      exact ⟨t, r, by simp, hr, h ▸ hk⟩
    | none =>
      rw [hm, none_orElse_eq] at h
      obtain ⟨t', r, ht', hr, hk⟩ := ih h
      exact ⟨t', r, by simp [ht'], hr, hk⟩

lemma matchOptGroup_some {m : Str → (Str → Option α) → Option α} {s : Str}
    {k : Str → Option α} {v : α} (h : matchOptGroup m s k = some v) :
    m s k = some v ∨ k s = some v := by
  rw [matchOptGroup] at h
  cases hm : m s k with
  | some w => rw [hm, some_orElse_eq] at h; exact Or.inl h
  | none => rw [hm, none_orElse_eq] at h; exact Or.inr h

lemma matchOne_some {p : Char → Bool} {s : Str} {k : Str → Str → Option α}
    {v : α} (h : matchOne p s k = some v) :
    ∃ c r, s = c :: r ∧ p c = true ∧ k [c] r = some v := by
  cases s with
  | nil => simp [matchOne] at h
  | cons c r =>
    rw [matchOne] at h
    by_cases hc : p c
    · rw [if_pos hc] at h
      exact ⟨c, r, rfl, hc, h⟩
    · rw [if_neg hc] at h
      exact absurd h (by simp)

lemma repFrom_some {p : Char → Bool} {s : Str} {k : Str → Str → Option α}
    {v : α} (h : repFrom p s k = some v) :
    ∃ t r, s = t ++ r ∧ t.all p = true ∧ k t r = some v := by
  induction s generalizing k with
  | nil => exact ⟨[], [], rfl, rfl, h⟩
  | cons c s ih =>
    rw [repFrom] at h
    by_cases hc : p c
    · rw [if_pos hc] at h
      cases hm : repFrom p s fun t r => k (c :: t) r with
      | some w =>
        rw [hm, some_orElse_eq] at h
        obtain ⟨t, r, hr, hall, hk⟩ := ih (hm.trans h)
        exact ⟨c :: t, r, by simp [hr], by simp [List.all_cons, hc, hall], hk⟩
      | none =>
        rw [hm, none_orElse_eq] at h
        exact ⟨[], c :: s, rfl, rfl, h⟩
    · rw [if_neg hc] at h
      exact ⟨[], c :: s, rfl, rfl, h⟩

lemma tryDesc_shift (k : Str → Str → Option α) (c : Char) (s : Str) (j : Nat) :
    (tryDesc (fun t r => k (c :: t) r) s j <|> k [] (c :: s)) =
      tryDesc k (c :: s) (j + 1) := by
  induction j with
  | zero => rfl
  | succ j ih =>
    rw [tryDesc, tryDesc, orElse_assoc, ih]
    simp [List.take_succ_cons, List.drop_succ_cons]

lemma repFrom_eq_tryDesc (p : Char → Bool) (s : Str) (k : Str → Str → Option α) :
    repFrom p s k = tryDesc k s (s.takeWhile p).length := by
  induction s generalizing k with
  | nil => rfl
  | cons c s ih =>
    rw [repFrom]
    by_cases hc : p c
    · rw [if_pos hc, ih, List.takeWhile_cons_of_pos hc, List.length_cons,
        tryDesc_shift]
    · rw [if_neg hc, List.takeWhile_cons_of_neg hc]
      rfl

lemma repAtMost_eq_tryDesc (p : Char → Bool) (n : Nat) (s : Str)
    (k : Str → Str → Option α) :
    repAtMost p n s k = tryDesc k s (min n (s.takeWhile p).length) := by
  induction n generalizing s k with
  | zero => simp [repAtMost, tryDesc]
  | succ n ih =>
    cases s with
    | nil => simp [repAtMost, List.takeWhile_nil, tryDesc]
    | cons c s =>
      rw [repAtMost]
      by_cases hc : p c
      · rw [if_pos hc, ih, List.takeWhile_cons_of_pos hc, List.length_cons,
          Nat.succ_min_succ, tryDesc_shift]
      · rw [if_neg hc, List.takeWhile_cons_of_neg hc]
        simp [tryDesc]

lemma tryDesc_eq_low {k : Str → Str → Option α} {s : Str} {j j₀ : Nat}
    (hle : j₀ ≤ j)
    (hnone : ∀ i, j₀ < i → i ≤ j → k (s.take i) (s.drop i) = none) :
    tryDesc k s j = tryDesc k s j₀ := by
  induction j with
  | zero => cases Nat.le_zero.mp hle; rfl
  | succ j ih =>
    rcases Nat.lt_or_ge j₀ (j + 1) with hlt | hge
    · rw [tryDesc, hnone (j + 1) hlt (Nat.le_refl _), none_orElse_eq]
      exact ih (Nat.lt_succ_iff.mp hlt)
        (fun i hi₁ hi₂ => hnone i hi₁ (Nat.le_succ_of_le hi₂))
    · cases Nat.le_antisymm hle hge; rfl

lemma tryDesc_top_some {α : Type} {k : Str → Str → Option α} {s : Str} {j : Nat}
    {v : α} (h : k (s.take j) (s.drop j) = some v) : tryDesc k s j = some v := by
  cases j with
  | zero => simpa using h
  | succ j => rw [tryDesc, h, some_orElse_eq]

lemma tryDesc_top2_some {α : Type} {k : Str → Str → Option α} {s : Str} {j : Nat}
    {v : α} (h1 : k (s.take (j + 1)) (s.drop (j + 1)) = none)
    (h2 : k (s.take j) (s.drop j) = some v) : tryDesc k s (j + 1) = some v := by
  rw [tryDesc, h1, none_orElse_eq]
  exact tryDesc_top_some h2

lemma tryDesc_none {α : Type} {k : Str → Str → Option α} {s : Str} {j : Nat}
    (h : ∀ i, i ≤ j → k (s.take i) (s.drop i) = none) : tryDesc k s j = none := by
  induction j with
  | zero => simpa [tryDesc] using h 0 (Nat.le_refl 0)
  | succ j ih =>
    rw [tryDesc, h (j + 1) (Nat.le_refl _), none_orElse_eq]
    exact ih (fun i hi => h i (Nat.le_succ_of_le hi))

lemma matchLit_cons_self {α : Type} (c : Char) (l s : Str) (k : Str → Option α) :
    matchLit (c :: l) (c :: s) k = matchLit l s k := by
  simp [matchLit]

lemma takeWhile_append_all {p : Char → Bool} {v : Str} (rest : Str)
    (hv : v.all p = true) :
    (v ++ rest).takeWhile p = v ++ rest.takeWhile p :=
  List.takeWhile_append_of_pos (by simpa [List.all_eq_true] using hv)

end CombinatorLemmas
section CeEval

lemma ceStageVer_eval (jv os arch version ext : Str)
    (hv : version.all isVerChar = true) (hv2 : 2 ≤ version.length)
    (hext : ext ∈ [str ("zip"), str ("tar.gz")]) :
    GraalVM.ceStageVer jv os arch (version ++ ('.' :: ext)) =
      some { arch := arch, ext := ext, java_version := jv, os := os,
             version := version } := by
  have hsplit : version ++ ('.' :: ext) = (version ++ ['.']) ++ ext := by simp
  have hlen : (version ++ ['.']).length = version.length + 1 := by simp
  have hvdot : (version ++ ['.']).all isVerChar = true := by
    simp [List.all_append, hv, isVerChar]
  rw [GraalVM.ceStageVer, repFrom_eq_tryDesc]
  rcases List.mem_cons.mp hext with rfl | hext
  · rw [takeWhile_append_all _ hv,
      show ('.' :: str ("zip")).takeWhile isVerChar = ['.'] from rfl, hlen]
    apply tryDesc_top2_some
    · rw [hsplit, List.take_left' hlen, List.drop_left' hlen]
      simp only [hlen]
      rw [if_pos (Nat.le_succ_of_le hv2)]
      simp [str, matchLit]
    · rw [List.take_left' rfl, List.drop_left' rfl, if_pos hv2]
      simp [str, matchLit, matchAlts]
  · rcases List.mem_singleton.mp hext with rfl
    rw [takeWhile_append_all _ hv,
      show ('.' :: str ("tar.gz")).takeWhile isVerChar = ['.'] from rfl, hlen]
    apply tryDesc_top2_some
    · rw [hsplit, List.take_left' hlen, List.drop_left' hlen]
      simp only [hlen]
      rw [if_pos (Nat.le_succ_of_le hv2)]
      simp [str, matchLit]
    · rw [List.take_left' rfl, List.drop_left' rfl, if_pos hv2]
      simp [str, matchLit, matchAlts]

lemma str_dash_append (x : Str) : str ("-") ++ x = '-' :: x := rfl

lemma str_dot_append (x : Str) : str (".") ++ x = '.' :: x := rfl

lemma str_us_append (x : Str) : str ("_") ++ x = '_' :: x := rfl

lemma repAtMost_digits_eval {α : Type} (bound : Nat) (n : Str) (c : Char)
    (rest : Str) (k : Str → Str → Option α) (v : α)
    (hn : n.all Char.isDigit = true) (hn2 : n.length ≤ bound)
    (hc : Char.isDigit c = false) (hk : k n (c :: rest) = some v) :
    repAtMost Char.isDigit bound (n ++ (c :: rest)) k = some v := by
  rw [repAtMost_eq_tryDesc, takeWhile_append_all _ hn,
    List.takeWhile_cons_of_neg (by simp [hc]), List.append_nil,
    Nat.min_eq_right hn2]
  apply tryDesc_top_some
  rw [List.take_left' rfl, List.drop_left' rfl]
  exact hk

lemma ceStageArch_eval (jv os arch version ext : Str)
    (harch : arch ∈ [str ("aarch64"), str ("amd64")])
    (hv : version.all isVerChar = true) (hv2 : 2 ≤ version.length)
    (hext : ext ∈ [str ("zip"), str ("tar.gz")]) :
    GraalVM.ceStageArch jv os (arch ++ ('-' :: (version ++ ('.' :: ext)))) =
      some { arch := arch, ext := ext, java_version := jv, os := os,
             version := version } := by
  have hk := ceStageVer_eval jv os arch version ext hv hv2 hext
  rcases List.mem_cons.mp harch with rfl | harch
  · rw [GraalVM.ceStageArch]
    simp only [str] at hk ⊢
    simp [matchAlts, matchLit, hk]
  · rcases List.mem_singleton.mp harch with rfl
    rw [GraalVM.ceStageArch]
    simp only [str] at hk ⊢
    simp [matchAlts, matchLit, hk]

lemma ceStageOs_eval (jv os arch version ext : Str)
    (hos : os ∈ [str ("linux"), str ("darwin"), str ("windows")])
    (harch : arch ∈ [str ("aarch64"), str ("amd64")])
    (hv : version.all isVerChar = true) (hv2 : 2 ≤ version.length)
    (hext : ext ∈ [str ("zip"), str ("tar.gz")]) :
    GraalVM.ceStageOs jv
        (os ++ ('-' :: (arch ++ ('-' :: (version ++ ('.' :: ext)))))) =
      some { arch := arch, ext := ext, java_version := jv, os := os,
             version := version } := by
  have hk := ceStageArch_eval jv os arch version ext harch hv hv2 hext
  rcases List.mem_cons.mp hos with rfl | hos
  · rw [GraalVM.ceStageOs]
    simp only [str] at hk ⊢
    simp [matchAlts, matchLit, hk]
  · rcases List.mem_cons.mp hos with rfl | hos
    · rw [GraalVM.ceStageOs]
      simp only [str] at hk ⊢
      simp [matchAlts, matchLit, hk]
    · rcases List.mem_singleton.mp hos with rfl
      rw [GraalVM.ceStageOs]
      simp only [str] at hk ⊢
      simp [matchAlts, matchLit, hk]

lemma ceParseAfter_eval (n os arch version ext : Str)
    (hn : n.all Char.isDigit = true) (hn1 : 1 ≤ n.length) (hn2 : n.length ≤ 2)
    (hos : os ∈ [str ("linux"), str ("darwin"), str ("windows")])
    (harch : arch ∈ [str ("aarch64"), str ("amd64")])
    (hv : version.all isVerChar = true) (hv2 : 2 ≤ version.length)
    (hext : ext ∈ [str ("zip"), str ("tar.gz")]) :
    GraalVM.ceParseAfter
        (str ("java") ++ (n ++ ('-' ::
          (os ++ ('-' :: (arch ++ ('-' :: (version ++ ('.' :: ext))))))))) =
      some { arch := arch, ext := ext, java_version := n, os := os,
             version := version } := by
  have hk := ceStageOs_eval n os arch version ext hos harch hv hv2 hext
  rw [GraalVM.ceParseAfter, matchLit_append]
  apply repAtMost_digits_eval 2 n '-' _ _ _ hn hn2 (by decide)
  rw [if_pos hn1]
  rw [show str ("-") = ['-'] from rfl, matchLit_cons_self, matchLit]
  exact hk

end CeEval
lemma ite_some {α : Type} {c : Prop} [Decidable c] {x : Option α} {v : α}
    (h : (if c then x else none) = some v) : c ∧ x = some v := by
  by_cases hc : c
  · rw [if_pos hc] at h
    exact ⟨hc, h⟩
  · rw [if_neg hc] at h
    cases h

lemma takeWhile_of_all {p : Char → Bool} {l : Str} (h : l.all p = true) :
    l.takeWhile p = l := by
  induction l with
  | nil => rfl
  | cons c t ih =>
    rw [List.all_cons, Bool.and_eq_true] at h
    rw [List.takeWhile_cons_of_pos h.1, ih h.2]

lemma matchLit_none_not_prefixOf {α : Type} (l s : Str) (k : Str → Option α)
    (h : l.isPrefixOf s = false) : matchLit l s k = none := by
  induction l generalizing s with
  | nil => simp [List.isPrefixOf] at h
  | cons c l ih =>
    cases s with
    | nil => rfl
    | cons d s =>
      simp only [List.isPrefixOf, Bool.and_eq_false_iff, beq_eq_false_iff_ne,
        ne_eq] at h
      rw [matchLit]
      by_cases hc : c = d
      · subst hc
        rw [if_pos rfl]
        apply ih
        rcases h with h | h
        · exact absurd rfl h
        · exact h
      · rw [if_neg hc]

section SemeruSound

lemma otherStageExt_sound {it arch os : Str} {s : Str} {m : Semeru.FileNameMeta}
    (h : Semeru.otherStageExt it arch os s = some m) :
    m.arch = arch ∧ m.image_type = it ∧ m.os = os ∧
      m.ext ∈ [str ("tar.gz"), str ("zip"), str ("msi")] := by
  rw [Semeru.otherStageExt] at h
  obtain ⟨t, r, -, -, hk⟩ := repFrom_some h
  obtain ⟨-, hk2⟩ := ite_some hk
  obtain ⟨r2, -, hk3⟩ := matchLit_some hk2
  obtain ⟨ext, r3, hext, -, hk4⟩ := matchAlts_some hk3
  obtain ⟨-, hk5⟩ := ite_some hk4
  obtain rfl := Option.some.inj hk5
  exact ⟨rfl, rfl, rfl, hext⟩

lemma otherStageTail_sound {it arch os : Str} {s : Str} {m : Semeru.FileNameMeta}
    (h : Semeru.otherStageTail it arch os s = some m) :
    m.arch = arch ∧ m.image_type = it ∧ m.os = os ∧
      m.ext ∈ [str ("tar.gz"), str ("zip"), str ("msi")] := by
  rw [Semeru.otherStageTail] at h
  rcases matchOptGroup_some h with hg | hs
  · obtain ⟨t, r, -, -, hk⟩ := repFrom_some hg
    obtain ⟨-, hk2⟩ := ite_some hk
    obtain ⟨r2, -, hk3⟩ := matchLit_some hk2
    exact otherStageExt_sound hk3
  · exact otherStageExt_sound hs

lemma otherParse_sound {name : Str} {m : Semeru.FileNameMeta}
    (h : Semeru.otherParse name = some m) : m.arch ∈ Semeru.otherArchAlts := by
  rw [Semeru.otherParse] at h
  obtain ⟨r1, -, h⟩ := matchLit_some h
  obtain ⟨t1, r2, -, -, h⟩ := matchAlts_some h
  obtain ⟨r3, -, h⟩ := matchLit_some h
  obtain ⟨it, r4, -, -, h⟩ := matchAlts_some h
  obtain ⟨r5, -, h⟩ := matchLit_some h
  obtain ⟨arch, r6, harch, -, h⟩ := matchAlts_some h
  obtain ⟨r7, -, h⟩ := matchLit_some h
  obtain ⟨os, r8, -, -, h⟩ := matchAlts_some h
  obtain ⟨r9, -, h⟩ := matchLit_some h
  obtain ⟨hm, -, -, -⟩ := otherStageTail_sound h
  rwa [hm]

end SemeruSound

section TagLemmas

lemma tagTail_sound {s v : Str} (h : Semeru.tagTail s = some v) :
    ∃ ver c w, (c = '_' ∨ c = '-') ∧
      s = ver ++ c :: (str ("openj9-") ++ w) := by
  rw [Semeru.tagTail] at h
  obtain ⟨t, r, hs, -, hk⟩ := repFrom_some h
  cases r with
  | nil => simp [Semeru.tagCheck] at hk
  | cons c s4 =>
    simp only [Semeru.tagCheck] at hk
    obtain ⟨hc, hk2⟩ := ite_some hk
    obtain ⟨r2, hr2, -⟩ := matchLit_some hk2
    refine ⟨t, c, r2, ?_, by rw [hs, hr2]⟩
    simpa using hc

lemma tagParse_sound {tag v : Str} (h : Semeru.tagParse tag = some v) :
    ∃ ver c w, (c = '_' ∨ c = '-') ∧
      tag = ver ++ c :: (str ("openj9-") ++ w) := by
  rw [Semeru.tagParse] at h
  rcases matchOptGroup_some h with hg | hs
  · obtain ⟨r1, hr1, hg2⟩ := matchLit_some hg
    rcases matchOptGroup_some hg2 with hg3 | hs3
    · obtain ⟨r2, hr2, hg4⟩ := matchLit_some hg3
      obtain ⟨ver, c, w, hc, hw⟩ := tagTail_sound hg4
      exact ⟨str ("jdk") ++ (str ("-") ++ ver), c, w, hc,
        by rw [hr1, hr2, hw]; simp⟩
    · obtain ⟨ver, c, w, hc, hw⟩ := tagTail_sound hs3
      exact ⟨str ("jdk") ++ ver, c, w, hc, by rw [hr1, hw]; simp⟩
  · exact tagTail_sound hs

lemma matchLit_os9_none {w : Str} (k : Str → Option Str)
    (hwsep : ∀ c ∈ w, ¬ c = '_' ∧ ¬ c = '-') :
    matchLit (str ("openj9-")) w k = none := by
  cases hml : matchLit (str ("openj9-")) w k with
  | none => rfl
  | some v =>
    obtain ⟨r, hr, -⟩ := matchLit_some hml
    have hmem : '-' ∈ w := by rw [hr]; simp [str]
    exact absurd rfl (hwsep '-' hmem).2

lemma tagCheck_drop_none (w : Str)
    (hwsep : ∀ c ∈ w, ¬ c = '_' ∧ ¬ c = '-') (t : Str) (m : Nat) :
    Semeru.tagCheck t ((str ("openj9-") ++ w).drop m) = none := by
  by_cases hm : m < 7
  · interval_cases m
    · simp [Semeru.tagCheck, str]
    · simp [Semeru.tagCheck, str]
    · simp [Semeru.tagCheck, str]
    · simp [Semeru.tagCheck, str]
    · simp [Semeru.tagCheck, str]
    · simp [Semeru.tagCheck, str]
    · simpa [Semeru.tagCheck, str] using matchLit_os9_none _ hwsep
  · obtain ⟨m2, rfl⟩ : ∃ m2, m = 7 + m2 := ⟨m - 7, by omega⟩
    have hdrop2 : (str ("openj9-") ++ w).drop (7 + m2) = w.drop m2 := by
      rw [show (7 : Nat) + m2 = (str ("openj9-")).length + m2 by simp [str]]
      exact List.drop_append m2
    rw [hdrop2]
    cases hd : w.drop m2 with
    | nil => rfl
    | cons c r =>
      have hc : c ∈ w := List.mem_of_mem_drop (hd ▸ List.mem_cons_self c r)
      obtain ⟨h1, h2⟩ := hwsep c hc
      simp [Semeru.tagCheck, h1, h2]

lemma tagTail_eval (version w : Str) (sep : Char)
    (hsep : sep = '_' ∨ sep = '-')
    (hv : version.all dotChar = true)
    (hw : w.all dotChar = true)
    (hwsep : ∀ c ∈ w, ¬ c = '_' ∧ ¬ c = '-') :
    Semeru.tagTail (version ++ sep :: (str ("openj9-") ++ w)) =
      some (version ++ str ("_openj9-") ++ w) := by
  have hsepdot : dotChar sep = true := by rcases hsep with rfl | rfl <;> decide
  have hos9 : (str ("openj9-")).all dotChar = true := by decide
  rw [Semeru.tagTail, repFrom_eq_tryDesc]
  have htw : ((version ++ sep :: (str ("openj9-") ++ w)).takeWhile dotChar) =
      version ++ sep :: (str ("openj9-") ++ w) := by
    rw [takeWhile_append_all _ hv, List.takeWhile_cons_of_pos hsepdot,
      takeWhile_append_all _ hos9, takeWhile_of_all hw]
  rw [htw]
  have hle : version.length ≤
      (version ++ sep :: (str ("openj9-") ++ w)).length := by
    simp
  rw [tryDesc_eq_low hle ?hnone]
  case hnone =>
    intro i hi1 hi2
    obtain ⟨m, rfl⟩ : ∃ m, i = version.length + 1 + m :=
      ⟨i - (version.length + 1), by omega⟩
    have hdrop : (version ++ sep :: (str ("openj9-") ++ w)).drop
        (version.length + 1 + m) = (str ("openj9-") ++ w).drop m := by
      rw [show version ++ sep :: (str ("openj9-") ++ w) =
        (version ++ [sep]) ++ (str ("openj9-") ++ w) by simp]
      rw [show version.length + 1 + m = (version ++ [sep]).length + m by simp]
      exact List.drop_append m
    rw [hdrop]
    exact tagCheck_drop_none w hwsep _ m
  apply tryDesc_top_some
  rw [List.take_left' rfl, List.drop_left' rfl]
  rcases hsep with rfl | rfl <;>
  · simp only [Semeru.tagCheck, matchLit_append, repFrom_eq_tryDesc,
      takeWhile_of_all hw]
    apply tryDesc_top_some
    simp

lemma tagTail_os9_none (w : Str) (hw : w.all dotChar = true)
    (hwsep : ∀ c ∈ w, ¬ c = '_' ∧ ¬ c = '-') :
    Semeru.tagTail (str ("openj9-") ++ w) = none := by
  have hos9 : (str ("openj9-")).all dotChar = true := by decide
  have hall : ((str ("openj9-") ++ w).all dotChar) = true := by
    rw [List.all_append, hos9, hw]
    rfl
  rw [Semeru.tagTail, repFrom_eq_tryDesc, takeWhile_of_all hall]
  apply tryDesc_none
  intro i hi
  exact tagCheck_drop_none w hwsep _ i

lemma jdk_not_pfx (version : Str) (sep : Char) (rest : Str)
    (hsep : sep = '_' ∨ sep = '-')
    (hnp : (str ("jdk")).isPrefixOf version = false) :
    (str ("jdk")).isPrefixOf (version ++ sep :: rest) = false := by
  match version with
  | [] => rcases hsep with rfl | rfl <;> simp [str, List.isPrefixOf]
  | [a] => rcases hsep with rfl | rfl <;> simp [str, List.isPrefixOf]
  | [a, b] => rcases hsep with rfl | rfl <;> simp [str, List.isPrefixOf]
  | a :: b :: c :: t =>
    simp only [str, List.isPrefixOf, List.cons_append] at hnp ⊢
    simpa using hnp

lemma tagParse_eval (pfx version w : Str) (sep : Char)
    (hsep : sep = '_' ∨ sep = '-') (hv : version.all dotChar = true)
    (hw : w.all dotChar = true) (hwsep : ∀ c ∈ w, ¬ c = '_' ∧ ¬ c = '-')
    (hpfx : pfx = str ("jdk-") ∨
      (pfx = str ("jdk") ∧ (str ("-")).isPrefixOf version = false) ∨
      (pfx = [] ∧ (str ("jdk")).isPrefixOf version = false)) :
    Semeru.tagParse (tagForm pfx version sep w) =
      some (version ++ str ("_openj9-") ++ w) := by
  have hcore := tagTail_eval version w sep hsep hv hw hwsep
  rcases hpfx with rfl | ⟨rfl, hnd⟩ | ⟨rfl, hnp⟩
  · have hform : tagForm (str ("jdk-")) version sep w =
        str ("jdk") ++ ('-' :: (version ++ sep :: (str ("openj9-") ++ w))) := by
      simp [tagForm, str]
    rw [Semeru.tagParse, matchOptGroup, hform]
    rw [matchLit_append, matchOptGroup,
      show str ("-") = ['-'] from rfl, matchLit_cons_self,
      show ∀ s k, matchLit ([] : Str) s k = k s from fun _ _ => rfl,
      hcore, some_orElse_eq, some_orElse_eq]
  · have hform : tagForm (str ("jdk")) version sep w =
        str ("jdk") ++ (version ++ sep :: (str ("openj9-") ++ w)) := by
      simp [tagForm]
    rw [Semeru.tagParse, matchOptGroup, hform]
    rw [matchLit_append, matchOptGroup]
    cases version with
    | nil =>
      simp only [List.nil_append] at hcore ⊢
      rcases hsep with rfl | rfl
      · rw [show matchLit (str ("-")) ('_' :: (str ("openj9-") ++ w))
            Semeru.tagTail = none from by simp [str, matchLit],
          none_orElse_eq, hcore, some_orElse_eq]
      · rw [show str ("-") = ['-'] from rfl, matchLit_cons_self,
          show ∀ s k, matchLit ([] : Str) s k = k s from fun _ _ => rfl,
          tagTail_os9_none w hw hwsep, none_orElse_eq, hcore, some_orElse_eq]
    | cons c v2 =>
      have hc : ¬ ('-' = c) := by
        simpa [str, List.isPrefixOf] using hnd
      rw [show str ("-") = ['-'] from rfl, List.cons_append]
      rw [show matchLit ['-'] (c :: (v2 ++ sep :: (str ("openj9-") ++ w)))
          Semeru.tagTail = none from by
        simp only [matchLit]
        exact if_neg hc]
      rw [none_orElse_eq]
      simp only [List.cons_append] at hcore
      rw [hcore, some_orElse_eq]
      simp
  · have hform : tagForm [] version sep w =
        version ++ sep :: (str ("openj9-") ++ w) := by
      simp [tagForm]
    rw [Semeru.tagParse, matchOptGroup, hform,
      matchLit_none_not_prefixOf _ _ _ (jdk_not_pfx version sep _ hsep hnp),
      none_orElse_eq]
    exact hcore

end TagLemmas
section MapLemmas

lemma except_toOption_some {ε α : Type} {x : Except ε α} {a : α} :
    x.toOption = some a ↔ x = .ok a := by
  cases x <;> simp [Except.toOption]

lemma g_map_asset_ok_iff (g : Str → Option Str) (a : GitHubAsset) :
    (∃ d, GraalVM.map_asset g a = .ok d) ↔
      (((str ("graalvm-ce")).isPrefixOf a.name = true ∧
          (GraalVM.ceParse a.name).isSome = true) ∨
       ((str ("graalvm-ce")).isPrefixOf a.name = false ∧
          (str ("graalvm-community")).isPrefixOf a.name = true ∧
          (GraalVM.communityParse a.name).isSome = true)) := by
  rw [GraalVM.map_asset]
  by_cases h1 : (str ("graalvm-ce")).isPrefixOf a.name
  · rw [if_pos h1]
    cases hp : GraalVM.ceParse a.name <;>
      simp [GraalVM.map_ce, GraalVM.meta_from_name_ce, hp, h1]
  · rw [if_neg h1]
    by_cases h2 : (str ("graalvm-community")).isPrefixOf a.name
    · rw [if_pos h2]
      cases hp : GraalVM.communityParse a.name <;>
        simp [GraalVM.map_community, GraalVM.meta_from_name_community, hp,
          Bool.eq_false_iff, h1, h2]
    · rw [if_neg h2]
      simp [Bool.eq_false_iff, h1, h2]

lemma g_map_asset_filename {g : Str → Option Str} {a : GitHubAsset}
    {d : JvmData} (h : GraalVM.map_asset g a = .ok d) : d.filename = a.name := by
  rw [GraalVM.map_asset] at h
  by_cases h1 : (str ("graalvm-ce")).isPrefixOf a.name
  · rw [if_pos h1] at h
    cases hp : GraalVM.ceParse a.name with
    | none => simp [GraalVM.map_ce, GraalVM.meta_from_name_ce, hp] at h
    | some m =>
      simp only [GraalVM.map_ce, GraalVM.meta_from_name_ce, hp] at h
      obtain rfl := Except.ok.inj h
      rfl
  · rw [if_neg h1] at h
    by_cases h2 : (str ("graalvm-community")).isPrefixOf a.name
    · rw [if_pos h2] at h
      cases hp : GraalVM.communityParse a.name with
      | none => simp [GraalVM.map_community, GraalVM.meta_from_name_community, hp] at h
      | some m =>
        simp only [GraalVM.map_community, GraalVM.meta_from_name_community, hp] at h
        obtain rfl := Except.ok.inj h
        rfl
    · rw [if_neg h2] at h
      cases h

lemma g_map_asset_error_suffix {g : Str → Option Str} {a : GitHubAsset}
    {e : Str} (h : GraalVM.map_asset g a = .error e) : a.name <:+ e := by
  rw [GraalVM.map_asset] at h
  by_cases h1 : (str ("graalvm-ce")).isPrefixOf a.name
  · rw [if_pos h1] at h
    cases hp : GraalVM.ceParse a.name with
    | none =>
      simp only [GraalVM.map_ce, GraalVM.meta_from_name_ce, hp] at h
      obtain rfl := (Except.error.inj h).symm
      exact ⟨str ("regular expression did not match name: "), rfl⟩
    | some m => simp [GraalVM.map_ce, GraalVM.meta_from_name_ce, hp] at h
  · rw [if_neg h1] at h
    by_cases h2 : (str ("graalvm-community")).isPrefixOf a.name
    · rw [if_pos h2] at h
      cases hp : GraalVM.communityParse a.name with
      | none =>
        simp only [GraalVM.map_community, GraalVM.meta_from_name_community, hp] at h
        obtain rfl := (Except.error.inj h).symm
        exact ⟨str ("regular expression did not match name: "), rfl⟩
      | some m =>
        simp [GraalVM.map_community, GraalVM.meta_from_name_community, hp] at h
    · rw [if_neg h2] at h
      obtain rfl := (Except.error.inj h).symm
      exact ⟨str ("unknown asset: "), rfl⟩

lemma g_mem_releaseData {g : Str → Option Str} {rel : GitHubRelease}
    {d : JvmData} (h : d ∈ GraalVM.releaseData g rel) :
    ∃ a, a ∈ rel.assets ∧ GraalVM.map_asset g a = .ok d := by
  rw [GraalVM.releaseData] at h
  obtain ⟨a, ha, hd⟩ := List.mem_filterMap.mp h
  exact ⟨a, (List.mem_filter.mp ha).1, except_toOption_some.mp hd⟩

lemma s_map_asset_meta_error {g : Str → Option Str} {rel : GitHubRelease}
    {asset : GitHubAsset} {me : Str}
    (h : Semeru.meta_from_name asset.name = .error me) :
    Semeru.map_asset g rel asset = .error me := by
  rw [Semeru.map_asset]
  simp only [h]

lemma s_meta_error_suffix {name me : Str}
    (h : Semeru.meta_from_name name = .error me) : name <:+ me := by
  rw [Semeru.meta_from_name] at h
  by_cases hs : (str (".rpm")).isSuffixOf name
  · rw [if_pos hs] at h
    cases hp : Semeru.rpmParse name with
    | none =>
      simp only [Semeru.meta_from_name_rpm, hp] at h
      obtain rfl := (Except.error.inj h).symm
      exact ⟨str ("regular expression failed for name: "), rfl⟩
    | some m => simp [Semeru.meta_from_name_rpm, hp] at h
  · rw [if_neg hs] at h
    cases hp : Semeru.otherParse name with
    | none =>
      simp only [Semeru.meta_from_name_other, hp] at h
      obtain rfl := (Except.error.inj h).symm
      exact ⟨str ("regular expression failed for name: "), rfl⟩
    | some m => simp [Semeru.meta_from_name_other, hp] at h

lemma s_map_asset_ok_meta {g : Str → Option Str} {rel : GitHubRelease}
    {a : GitHubAsset} {d : JvmData} (h : Semeru.map_asset g rel a = .ok d) :
    d.filename = a.name ∧ ∃ m, Semeru.meta_from_name a.name = .ok m := by
  rw [Semeru.map_asset] at h
  cases hm : Semeru.meta_from_name a.name with
  | error e => simp [hm] at h
  | ok m =>
    cases ht : Semeru.version_from_tag rel.tag_name with
    | error e => simp [hm, ht] at h
    | ok ver =>
      simp only [hm, ht] at h
      obtain rfl := Except.ok.inj h
      exact ⟨rfl, m, rfl⟩

lemma s_mem_releaseData {g : Str → Option Str} {rel : GitHubRelease}
    {d : JvmData} (h : d ∈ Semeru.releaseData g rel) :
    ∃ a, a ∈ rel.assets ∧ Semeru.map_asset g rel a = .ok d := by
  rw [Semeru.releaseData] at h
  obtain ⟨a, ha, hd⟩ := List.mem_filterMap.mp h
  exact ⟨a, (List.mem_filter.mp ha).1, except_toOption_some.mp hd⟩

lemma semeru_fetchLoop_ok (lr : Str → Except Str (List GitHubRelease))
    (g : Str → Option Str) (vs : List Str) (acc : Finset JvmData)
    (hok : ∀ v ∈ vs, ∃ rl, lr (Semeru.slugFor v) = .ok rl) :
    (Semeru.fetchLoop lr g vs acc).2 = .ok () := by
  induction vs generalizing acc with
  | nil => rfl
  | cons v vs ih =>
    obtain ⟨rl, hrl⟩ := hok v (List.mem_cons_self v vs)
    rw [Semeru.fetchLoop, hrl]
    exact ih _ (fun v' hv' => hok v' (List.mem_cons_of_mem _ hv'))

end MapLemmas
section SetLemmas

lemma semeru_fetchLoop_union (lr : Str → Except Str (List GitHubRelease))
    (g : Str → Option Str) (vs : List Str) :
    ∀ (acc t s : Finset JvmData), Semeru.fetchLoop lr g vs acc = (s, .ok ()) →
      Semeru.fetchLoop lr g vs (acc ∪ t) = (s ∪ t, .ok ()) := by
  induction vs with
  | nil =>
    intro acc t s h
    rw [Semeru.fetchLoop] at h
    injection h with h1 h2
    subst h1
    rfl
  | cons v vs ih =>
    intro acc t s h
    rw [Semeru.fetchLoop] at h ⊢
    cases hrl : lr (Semeru.slugFor v) with
    | error e =>
      simp only [hrl] at h
      injection h with h1 h2
      cases h2
    | ok rl =>
      simp only [hrl] at h ⊢
      have h2 := ih (acc ∪ (Semeru.slugData g rl).toFinset) t s h
      rwa [Finset.union_right_comm acc t]

lemma semeru_fetchLoop_subset (lr : Str → Except Str (List GitHubRelease))
    (g : Str → Option Str) (vs : List Str) :
    ∀ (acc s : Finset JvmData), Semeru.fetchLoop lr g vs acc = (s, .ok ()) →
      acc ⊆ s := by
  induction vs with
  | nil =>
    intro acc s h
    rw [Semeru.fetchLoop] at h
    injection h with h1 h2
    subst h1
    exact Finset.Subset.refl _
  | cons v vs ih =>
    intro acc s h
    rw [Semeru.fetchLoop] at h
    cases hrl : lr (Semeru.slugFor v) with
    | error e =>
      simp only [hrl] at h
      injection h with h1 h2
      cases h2
    | ok rl =>
      simp only [hrl] at h
      exact (Finset.subset_union_left).trans (ih _ _ h)

lemma semeru_fetchLoop_perm (g : Str → Option Str)
    (f f' : Str → List GitHubRelease)
    (hp : ∀ slug, (f slug).Perm (f' slug)) (vs : List Str) :
    ∀ acc, Semeru.fetchLoop (fun slug => .ok (f slug)) g vs acc =
      Semeru.fetchLoop (fun slug => .ok (f' slug)) g vs acc := by
  induction vs with
  | nil => intro acc; rfl
  | cons v vs ih =>
    intro acc
    have hperm : (Semeru.slugData g (f (Semeru.slugFor v))).Perm
        (Semeru.slugData g (f' (Semeru.slugFor v))) :=
      List.Perm.flatMap_right _ ((hp (Semeru.slugFor v)).filter _)
    simp only [Semeru.fetchLoop]
    rw [List.toFinset_eq_of_perm _ _ hperm]
    exact ih _

end SetLemmas

/-- C1 (counterexample): the claim quantifies over every filename of the
form `graalvm-ce[-complete]-java<N>-<os>-<arch>-<version>.<ext>`, but the
CE parser limits `<N>` to one or two digits: the form instance with
`N = 100` (and valid os/arch/version/ext tokens) is rejected by
`meta_from_name_ce`. -/
theorem C1_counterexample :
    ceForm false (str ("100")) (str ("windows")) (str ("amd64"))
        (str ("19.3.4")) (str ("zip")) =
      str ("graalvm-ce-java100-windows-amd64-19.3.4.zip") ∧
    GraalVM.meta_from_name_ce
        (str ("graalvm-ce-java100-windows-amd64-19.3.4.zip")) =
      .error (str ("regular expression did not match name: ") ++
        str ("graalvm-ce-java100-windows-amd64-19.3.4.zip")) :=
  ⟨rfl, rfl⟩

/-- C1 (amended): for every filename of the GraalVM CE form
`graalvm-ce[-complete]-java<N>-<os>-<arch>-<version>.<ext>` with `N` a
one- or two-digit number, os in {linux, darwin, windows}, arch in
{aarch64, amd64}, version a string of length at least two over the
characters `0-9`, `+`, `.`, and ext in {zip, tar.gz}, the CE filename
parser succeeds and returns exactly the field tuple
(arch, os, javaVersion N, version, ext). -/
theorem C1_ce_parser_on_documented_form (complete : Bool)
    (n os arch version ext : Str)
    (hn : n.all Char.isDigit = true) (hn1 : 1 ≤ n.length) (hn2 : n.length ≤ 2)
    (hos : os ∈ [str ("linux"), str ("darwin"), str ("windows")])
    (harch : arch ∈ [str ("aarch64"), str ("amd64")])
    (hv : version.all isVerChar = true) (hv2 : 2 ≤ version.length)
    (hext : ext ∈ [str ("zip"), str ("tar.gz")]) :
    GraalVM.meta_from_name_ce (ceForm complete n os arch version ext) =
      .ok { arch := arch, ext := ext, java_version := n, os := os,
            version := version } := by
  have hcore := ceParseAfter_eval n os arch version ext hn hn1 hn2 hos harch
    hv hv2 hext
  have hp : GraalVM.ceParse (ceForm complete n os arch version ext) =
      some { arch := arch, ext := ext, java_version := n, os := os,
             version := version } := by
    rw [GraalVM.ceParse]
    cases complete
    · simp only [ceForm, Bool.false_eq_true, if_false, List.nil_append,
        List.append_assoc, List.cons_append, str_dash_append, str_dot_append]
      rw [matchLit_append, matchOptGroup,
        matchLit_none_incomp _ _ _ _ (by decide) (by decide), none_orElse_eq]
      simp only [List.append_assoc, List.cons_append] at hcore ⊢
      exact hcore
    · simp only [ceForm, if_true, List.append_assoc, List.cons_append,
        str_dash_append, str_dot_append]
      rw [matchLit_append, matchOptGroup, matchLit_append]
      simp only [List.append_assoc, List.cons_append] at hcore ⊢
      rw [hcore, some_orElse_eq]
  simp [GraalVM.meta_from_name_ce, hp]

/-- C1 (witness): the documented fixture
`graalvm-ce-java8-windows-amd64-19.3.4.zip` parses to
arch amd64, ext zip, javaVersion 8, os windows, version 19.3.4. -/
theorem C1_witness :
    GraalVM.meta_from_name_ce
        (ceForm false (str ("8")) (str ("windows")) (str ("amd64"))
          (str ("19.3.4")) (str ("zip"))) =
      .ok { arch := str ("amd64"), ext := str ("zip"),
            java_version := str ("8"), os := str ("windows"),
            version := str ("19.3.4") } :=
  C1_ce_parser_on_documented_form false (str ("8")) (str ("windows"))
    (str ("amd64")) (str ("19.3.4")) (str ("zip")) (by decide) (by decide)
    (by decide) (by decide) (by decide) (by decide) (by decide) (by decide)

/-- C2 (counterexample): the Semeru non-rpm grammar also accepts the
architecture token `x86-64`, which is not in the claimed seven-element
set: `meta_from_name_other` succeeds on a filename with that token. -/
theorem C2_counterexample :
    Semeru.meta_from_name_other
        (str ("ibm-semeru-open-jdk_x86-64_linux_17.0.1.tar.gz")) =
      .ok { arch := str ("x86-64"), image_type := str ("jdk"),
            os := str ("linux"), ext := str ("tar.gz") } ∧
    str ("x86-64") ∉ [str ("x64"), str ("x86-32"), str ("x86_64"),
      str ("s390x"), str ("ppc64"), str ("ppc64le"), str ("aarch64")] :=
  ⟨rfl, by decide⟩

/-- C2 (amended): the Semeru non-rpm filename grammar accepts an
architecture token if and only if it belongs to the exact closed
eight-element set {x64, x86-32, x86-64, x86_64, s390x, ppc64, ppc64le,
aarch64}: every accepted filename's extracted arch is a member of that
set, and each member is realized by an accepted filename. -/
theorem C2_arch_alternation :
    (∀ name m, Semeru.meta_from_name_other name = .ok m →
      m.arch ∈ Semeru.otherArchAlts) ∧
    (∀ a ∈ Semeru.otherArchAlts,
      Semeru.meta_from_name_other (otherForm a) =
        .ok { arch := a, image_type := str ("jdk"), os := str ("linux"),
              ext := str ("tar.gz") }) := by
  constructor
  · intro name m h
    rw [Semeru.meta_from_name_other] at h
    cases hp : Semeru.otherParse name with
    | none => rw [hp] at h; cases h
    | some m' =>
      rw [hp] at h
      obtain rfl := Except.ok.inj h
      exact otherParse_sound hp
  · intro a ha
    simp only [Semeru.otherArchAlts, List.mem_cons,
      List.not_mem_nil, or_false] at ha
    rcases ha with rfl | rfl | rfl | rfl | rfl | rfl | rfl | rfl <;> rfl

/-- C2 (witness): the accepted fixture
`ibm-semeru-open-jdk_x64_windows_11.0.22_7_openj9-0.43.0.zip` has its
extracted architecture token in the accepted set. -/
theorem C2_witness :
    str ("x64") ∈ Semeru.otherArchAlts :=
  C2_arch_alternation.1
    (str ("ibm-semeru-open-jdk_x64_windows_11.0.22_7_openj9-0.43.0.zip"))
    { arch := str ("x64"), image_type := str ("jdk"),
      os := str ("windows"), ext := str ("zip") } rfl

/-- C4 (counterexample): the claim says a tag matching
`[jdk-]<version>[_-]openj9-<openj9Version>` yields
`<version>_openj9-<openj9Version>`; the tag `jdk9_openj9-0.1` matches that
shape with version `jdk9` (the optional `jdk-` piece absent), yet the
extractor strips the bare `jdk` prefix (the regex is `(?:jdk-?)?`) and
returns `9_openj9-0.1` instead of `jdk9_openj9-0.1`. -/
theorem C4_counterexample :
    tagForm [] (str ("jdk9")) '_' (str ("0.1")) =
      str ("jdk9_openj9-0.1") ∧
    Semeru.version_from_tag (str ("jdk9_openj9-0.1")) =
      .ok (str ("9_openj9-0.1")) ∧
    str ("9_openj9-0.1") ≠ str ("jdk9") ++ str ("_openj9-") ++ str ("0.1") :=
  ⟨rfl, rfl, by decide⟩

/-- C4 (amended): for every release tag of the form
`<pfx><version><sep>openj9-<openj9Version>` — where `<pfx>` is one of the
empty prefix, `jdk` or `jdk-` (the optional regex prefix `(?:jdk-?)?`),
`<sep>` is `_` or `-`, `<version>` and `<openj9Version>` contain no
newline, `<openj9Version>` contains no `_` or `-` (so the greedy
rightmost match picks this split), `<version>` does not begin with `-`
when `<pfx>` is `jdk`, and `<version>` does not begin with `jdk` when
`<pfx>` is empty (so the optional prefix strip matches this
decomposition) — the tag-version extractor returns the combined
canonical string `<version>_openj9-<openj9Version>`; and for every tag
not containing a `[_-]openj9-` separator at all (not matching the shape)
it returns the source's failure value. -/
theorem C4_tag_version (pfx version w : Str) (sep : Char) (tag : Str) :
    ((sep = '_' ∨ sep = '-') → version.all dotChar = true →
     w.all dotChar = true → (∀ c ∈ w, ¬ c = '_' ∧ ¬ c = '-') →
     (pfx = str ("jdk-") ∨
      (pfx = str ("jdk") ∧ (str ("-")).isPrefixOf version = false) ∨
      (pfx = [] ∧ (str ("jdk")).isPrefixOf version = false)) →
      Semeru.version_from_tag (tagForm pfx version sep w) =
        .ok (version ++ str ("_openj9-") ++ w)) ∧
    ((¬ ∃ ver c w', (c = '_' ∨ c = '-') ∧
        tag = ver ++ c :: (str ("openj9-") ++ w')) →
      Semeru.version_from_tag tag =
        .error (str ("regular expression failed for tag: ") ++ tag)) := by
  constructor
  · intro hsep hv hw hwsep hpfx
    have hp := tagParse_eval pfx version w sep hsep hv hw hwsep hpfx
    simp [Semeru.version_from_tag, hp]
  · intro hno
    cases hp : Semeru.tagParse tag with
    | none => simp [Semeru.version_from_tag, hp]
    | some v => exact absurd (tagParse_sound hp) hno

/-- C4 (witness): the dashless-prefix tag `jdk8u345-b01_openj9-0.33.0`
yields `8u345-b01_openj9-0.33.0`, the dashed-prefix tag
`jdk-17.0.1+12_openj9-0.29.1` yields `17.0.1+12_openj9-0.29.1`, and the
empty tag (no `[_-]openj9-` separator) fails. -/
theorem C4_witness :
    Semeru.version_from_tag (tagForm (str ("jdk")) (str ("8u345-b01")) '_'
        (str ("0.33.0"))) =
      .ok (str ("8u345-b01") ++ str ("_openj9-") ++ str ("0.33.0")) ∧
    Semeru.version_from_tag (tagForm (str ("jdk-")) (str ("17.0.1+12")) '_'
        (str ("0.29.1"))) =
      .ok (str ("17.0.1+12") ++ str ("_openj9-") ++ str ("0.29.1")) ∧
    Semeru.version_from_tag ([] : Str) =
      .error (str ("regular expression failed for tag: ") ++ ([] : Str)) := by
  refine ⟨?_, ?_, ?_⟩
  · exact (C4_tag_version (str ("jdk")) (str ("8u345-b01")) (str ("0.33.0"))
      '_' []).1 (Or.inl rfl) (by decide) (by decide) (by decide)
      (Or.inr (Or.inl ⟨rfl, by decide⟩))
  · exact (C4_tag_version (str ("jdk-")) (str ("17.0.1+12")) (str ("0.29.1"))
      '_' []).1 (Or.inl rfl) (by decide) (by decide) (by decide) (Or.inl rfl)
  · exact (C4_tag_version (str ("jdk-")) (str ("17.0.1+12")) (str ("0.29.1"))
      '_' []).2 (by rintro ⟨ver, c, w', -, heq⟩; simp at heq)

/-- C3: for every asset whose filename does not match its vendor's
grammar, the asset mapping returns a structured failure whose message ends
with the offending filename, no catalog entry with that filename is
produced for the release, the release mapping still returns `Ok`, and the
vendor's overall fetch still succeeds (given the release listing itself
succeeds): the failure is absorbed at the single-asset level. -/
theorem C3_grammar_mismatch_isolated (g : Str → Option Str)
    (rel : GitHubRelease) (asset : GitHubAsset)
    (rels : List GitHubRelease) (init : Finset JvmData)
    (lr : Str → Except Str (List GitHubRelease)) :
    (∀ e, GraalVM.map_asset g asset = .error e →
      asset.name <:+ e ∧
      GraalVM.map_release g rel = .ok (GraalVM.releaseData g rel) ∧
      (∀ d ∈ GraalVM.releaseData g rel, d.filename ≠ asset.name) ∧
      (GraalVM.fetch_data (.ok rels) g init).2 = .ok ()) ∧
    (∀ e, Semeru.meta_from_name asset.name = .error e →
      Semeru.map_asset g rel asset = .error e ∧
      asset.name <:+ e ∧
      Semeru.map_release g rel = .ok (Semeru.releaseData g rel) ∧
      (∀ d ∈ Semeru.releaseData g rel, d.filename ≠ asset.name) ∧
      ((∀ v ∈ Semeru.versionLabels, ∃ rl, lr (Semeru.slugFor v) = .ok rl) →
        (Semeru.fetch_data lr g init).2 = .ok ())) := by
  constructor
  · intro e he
    refine ⟨g_map_asset_error_suffix he, rfl, ?_, rfl⟩
    intro d hd heq
    obtain ⟨a, ha, hok⟩ := g_mem_releaseData hd
    have hfn := g_map_asset_filename hok
    have han : a.name = asset.name := hfn.symm.trans heq
    have h2 := (g_map_asset_ok_iff g a).mp ⟨d, hok⟩
    rw [han] at h2
    obtain ⟨d', hd'⟩ := (g_map_asset_ok_iff g asset).mpr h2
    rw [he] at hd'
    cases hd'
  · intro e he
    refine ⟨s_map_asset_meta_error he, s_meta_error_suffix he, rfl, ?_, ?_⟩
    · intro d hd heq
      obtain ⟨a, ha, hok⟩ := s_mem_releaseData hd
      obtain ⟨hfn, m, hm⟩ := s_map_asset_ok_meta hok
      have han : a.name = asset.name := hfn.symm.trans heq
      rw [han, he] at hm
      cases hm
    · intro hok
      exact semeru_fetchLoop_ok lr g _ init hok

/-- C3 (witness): an asset named `graalvm-ce-bogus.zip` (resp. the same
name for Semeru) fails both vendors' grammars, the error messages name the
file, and the release mapping and fetch outcomes are unaffected. -/
theorem C3_witness :
    ((str ("graalvm-ce-bogus.zip") : Str) <:+
      (str ("regular expression did not match name: ") ++
        str ("graalvm-ce-bogus.zip"))) ∧
    Semeru.map_asset (fun _ => none)
        { tag_name := [], prerelease := false, assets := [] }
        { name := str ("graalvm-ce-bogus.zip"), browser_download_url := [] } =
      .error (str ("regular expression failed for name: ") ++
        str ("graalvm-ce-bogus.zip")) := by
  refine ⟨?_, ?_⟩
  · exact ((C3_grammar_mismatch_isolated (fun _ => none)
      { tag_name := [], prerelease := false, assets := [] }
      { name := str ("graalvm-ce-bogus.zip"), browser_download_url := [] }
      [] ∅ (fun _ => .ok [])).1 _ rfl).1
  · exact ((C3_grammar_mismatch_isolated (fun _ => none)
      { tag_name := [], prerelease := false, assets := [] }
      { name := str ("graalvm-ce-bogus.zip"), browser_download_url := [] }
      [] ∅ (fun _ => .ok [])).2 _ rfl).1

/-- C5: a release whose prerelease flag is true contributes no entries to
the Semeru per-slug data (the adapter filters prereleases), while the
GraalVM adapter processes a release identically whatever its prerelease
flag: its per-release entries and overall fetch result do not depend on
the flag. -/
theorem C5_prerelease_policy (g : Str → Option Str) (r : GitHubRelease)
    (rest : List GitHubRelease) (b : Bool) (init : Finset JvmData) :
    (r.prerelease = true →
      Semeru.slugData g (r :: rest) = Semeru.slugData g rest) ∧
    (GraalVM.collectData g ({ r with prerelease := b } :: rest) =
      GraalVM.releaseData g r ++ GraalVM.collectData g rest) ∧
    (GraalVM.fetch_data (.ok ({ r with prerelease := b } :: rest)) g init =
      GraalVM.fetch_data (.ok (r :: rest)) g init) := by
  refine ⟨?_, ?_, ?_⟩
  · intro h
    simp [Semeru.slugData, List.filter_cons, h]
  · rfl
  · rfl

/-- C5 (witness): a concrete prerelease release with one asset contributes
nothing to the Semeru slug data. -/
theorem C5_witness :
    Semeru.slugData (fun _ => none)
        [{ tag_name := str ("jdk-17_openj9-0.1"), prerelease := true,
           assets := [{ name := str ("x.zip"), browser_download_url := [] }] }] =
      Semeru.slugData (fun _ => none) [] :=
  (C5_prerelease_policy (fun _ => none)
    { tag_name := str ("jdk-17_openj9-0.1"), prerelease := true,
      assets := [{ name := str ("x.zip"), browser_download_url := [] }] }
    [] true ∅).1 rfl

/-- C6: the Semeru asset-inclusion predicate returns false for every asset
whose name contains "debugimage" or "testimage" or ends in ".tap.zip",
and returns true only for names ending in .zip, .tar.gz, .msi or .rpm. -/
theorem C6_include_predicate (a : GitHubAsset) :
    ((strContains a.name (str ("debugimage")) = true ∨
      strContains a.name (str ("testimage")) = true ∨
      (str (".tap.zip")).isSuffixOf a.name = true) →
      Semeru.include_asset a = false) ∧
    (Semeru.include_asset a = true →
      ((str (".zip")).isSuffixOf a.name = true ∨
       (str (".tar.gz")).isSuffixOf a.name = true ∨
       (str (".msi")).isSuffixOf a.name = true ∨
       (str (".rpm")).isSuffixOf a.name = true)) := by
  constructor
  · intro h
    rcases h with h | h | h <;> simp [Semeru.include_asset, h]
  · intro h
    simp only [Semeru.include_asset, Bool.and_eq_true, Bool.or_eq_true] at h
    tauto

/-- C6 (witness): a testimage-named zip is excluded, and an accepted
`.tar.gz` asset indeed carries one of the four admissible extensions. -/
theorem C6_witness :
    Semeru.include_asset
        { name := str ("ibm-semeru-open-jdk-testimage.zip"),
          browser_download_url := [] } = false ∧
    ((str (".zip")).isSuffixOf
        (str ("ibm-semeru-open-jdk_x64_linux_17.tar.gz")) = true ∨
     (str (".tar.gz")).isSuffixOf
        (str ("ibm-semeru-open-jdk_x64_linux_17.tar.gz")) = true ∨
     (str (".msi")).isSuffixOf
        (str ("ibm-semeru-open-jdk_x64_linux_17.tar.gz")) = true ∨
     (str (".rpm")).isSuffixOf
        (str ("ibm-semeru-open-jdk_x64_linux_17.tar.gz")) = true) :=
  ⟨(C6_include_predicate
      { name := str ("ibm-semeru-open-jdk-testimage.zip"),
        browser_download_url := [] }).1 (Or.inr (Or.inl (by decide))),
   (C6_include_predicate
      { name := str ("ibm-semeru-open-jdk_x64_linux_17.tar.gz"),
        browser_download_url := [] }).2 (by decide)⟩

/-- C7: when the checksum-body fetch fails (or, for Semeru, the body has
no whitespace-separated token), the adapter still produces a result
identical to the success case except that the checksum field is absent:
mapping the success-case entry through `clearChecksum` gives exactly the
failure-case result, for GraalVM CE, GraalVM Community and Semeru. -/
theorem C7_checksum_failure_degrades (g₁ g₂ : Str → Option Str)
    (rel : GitHubRelease) (asset : GitHubAsset) (body : Str) :
    (g₁ (asset.browser_download_url ++ str (".sha256")) = none →
     g₂ (asset.browser_download_url ++ str (".sha256")) = some body →
      GraalVM.map_ce g₁ asset = (GraalVM.map_ce g₂ asset).map clearChecksum ∧
      GraalVM.map_community g₁ asset =
        (GraalVM.map_community g₂ asset).map clearChecksum) ∧
    ((g₁ (asset.browser_download_url ++ str (".sha256.txt")) = none ∨
      (∃ b, g₁ (asset.browser_download_url ++ str (".sha256.txt")) = some b ∧
        Semeru.firstToken b = none)) →
     g₂ (asset.browser_download_url ++ str (".sha256.txt")) = some body →
      Semeru.map_asset g₁ rel asset =
        (Semeru.map_asset g₂ rel asset).map clearChecksum) := by
  constructor
  · intro h1 h2
    constructor
    · cases hp : GraalVM.ceParse asset.name <;>
        simp [GraalVM.map_ce, GraalVM.meta_from_name_ce, hp, h1, h2,
          Except.map, clearChecksum]
    · cases hp : GraalVM.communityParse asset.name <;>
        simp [GraalVM.map_community, GraalVM.meta_from_name_community, hp,
          h1, h2, Except.map, clearChecksum]
  · intro h1 h2
    cases hm : Semeru.meta_from_name asset.name with
    | error e => simp [Semeru.map_asset, hm, Except.map]
    | ok m =>
      cases ht : Semeru.version_from_tag rel.tag_name with
      | error e =>
        rcases h1 with h1 | ⟨b, hb, hft⟩
        · simp [Semeru.map_asset, hm, ht, h1, h2, Except.map]
        · simp [Semeru.map_asset, hm, ht, hb, hft, h2, Except.map]
      | ok ver =>
        rcases h1 with h1 | ⟨b, hb, hft⟩
        · simp [Semeru.map_asset, hm, ht, h1, h2, Except.map, clearChecksum]
        · simp [Semeru.map_asset, hm, ht, hb, hft, h2, Except.map,
            clearChecksum]

/-- C7 (witness): concrete collaborators, one failing and one returning a
body, produce the same Semeru entry up to the absent checksum. -/
theorem C7_witness :
    Semeru.map_asset (fun _ => none)
        { tag_name := str ("jdk-17_openj9-0.1"), prerelease := false,
          assets := [] }
        { name := str ("ibm-semeru-open-jdk_x64_linux_17.0.1.tar.gz"),
          browser_download_url := str ("u") } =
      (Semeru.map_asset (fun _ => some (str ("abc 123")))
        { tag_name := str ("jdk-17_openj9-0.1"), prerelease := false,
          assets := [] }
        { name := str ("ibm-semeru-open-jdk_x64_linux_17.0.1.tar.gz"),
          browser_download_url := str ("u") }).map clearChecksum :=
  (C7_checksum_failure_degrades (fun _ => none)
    (fun _ => some (str ("abc 123")))
    { tag_name := str ("jdk-17_openj9-0.1"), prerelease := false,
      assets := [] }
    { name := str ("ibm-semeru-open-jdk_x64_linux_17.0.1.tar.gz"),
      browser_download_url := str ("u") }
    (str ("abc 123"))).2 (Or.inl rfl) rfl

/-- C9: every catalog entry emitted by the GraalVM CE, GraalVM Community
and Semeru mappings has `checksum_url` present and equal to the asset's
download URL with the vendor's fixed suffix appended (".sha256" for
GraalVM, ".sha256.txt" for Semeru). -/
theorem C9_checksum_url_present (g : Str → Option Str) (rel : GitHubRelease)
    (asset : GitHubAsset) (d : JvmData) :
    (GraalVM.map_ce g asset = .ok d →
      d.checksum_url = some (asset.browser_download_url ++ str (".sha256"))) ∧
    (GraalVM.map_community g asset = .ok d →
      d.checksum_url = some (asset.browser_download_url ++ str (".sha256"))) ∧
    (Semeru.map_asset g rel asset = .ok d →
      d.checksum_url =
        some (asset.browser_download_url ++ str (".sha256.txt"))) := by
  refine ⟨?_, ?_, ?_⟩
  · intro h
    cases hp : GraalVM.ceParse asset.name with
    | none => simp [GraalVM.map_ce, GraalVM.meta_from_name_ce, hp] at h
    | some m =>
      simp only [GraalVM.map_ce, GraalVM.meta_from_name_ce, hp] at h
      obtain rfl := Except.ok.inj h
      rfl
  · intro h
    cases hp : GraalVM.communityParse asset.name with
    | none =>
      simp [GraalVM.map_community, GraalVM.meta_from_name_community, hp] at h
    | some m =>
      simp only [GraalVM.map_community, GraalVM.meta_from_name_community,
        hp] at h
      obtain rfl := Except.ok.inj h
      rfl
  · intro h
    rw [Semeru.map_asset] at h
    cases hm : Semeru.meta_from_name asset.name with
    | error e => simp [hm] at h
    | ok m =>
      cases ht : Semeru.version_from_tag rel.tag_name with
      | error e => simp [hm, ht] at h
      | ok ver =>
        simp only [hm, ht] at h
        obtain rfl := Except.ok.inj h
        rfl

/-- C9 (witness): a parsed Semeru asset's entry carries the
".sha256.txt"-suffixed checksum URL. -/
theorem C9_witness :
    ∃ d, Semeru.map_asset (fun _ => none)
        { tag_name := str ("jdk-17_openj9-0.1"), prerelease := false,
          assets := [] }
        { name := str ("ibm-semeru-open-jdk_x64_linux_17.0.1.tar.gz"),
          browser_download_url := str ("u") } = .ok d ∧
      d.checksum_url = some (str ("u") ++ str (".sha256.txt")) := by
  refine ⟨_, rfl, ?_⟩
  exact (C9_checksum_url_present (fun _ => none)
    { tag_name := str ("jdk-17_openj9-0.1"), prerelease := false,
      assets := [] }
    { name := str ("ibm-semeru-open-jdk_x64_linux_17.0.1.tar.gz"),
      browser_download_url := str ("u") } _).2.2 rfl

/-- C10: a Semeru catalog entry's features field is exactly the
one-element list ["certified"] when the asset name contains the substring
"-certified", and absent otherwise; no other feature value is ever
emitted. -/
theorem C10_features_certified (g : Str → Option Str) (rel : GitHubRelease)
    (asset : GitHubAsset) (d : JvmData)
    (h : Semeru.map_asset g rel asset = .ok d) :
    d.features = if strContains asset.name (str ("-certified")) = true
      then some [str ("certified")] else none := by
  rw [Semeru.map_asset] at h
  cases hm : Semeru.meta_from_name asset.name with
  | error e => simp [hm] at h
  | ok m =>
    cases ht : Semeru.version_from_tag rel.tag_name with
    | error e => simp [hm, ht] at h
    | ok ver =>
      simp only [hm, ht] at h
      obtain rfl := Except.ok.inj h
      rfl

/-- C10 (witness): a "-certified" filename yields features ["certified"]. -/
theorem C10_witness :
    ∃ d, Semeru.map_asset (fun _ => none)
        { tag_name := str ("jdk-17_openj9-0.1"), prerelease := false,
          assets := [] }
        { name := str ("ibm-semeru-certified-jdk_x64_linux_17.0.1.tar.gz"),
          browser_download_url := str ("u") } = .ok d ∧
      d.features = if strContains
          (str ("ibm-semeru-certified-jdk_x64_linux_17.0.1.tar.gz"))
          (str ("-certified")) = true
        then some [str ("certified")] else none := by
  refine ⟨_, rfl, ?_⟩
  exact C10_features_certified (fun _ => none)
    { tag_name := str ("jdk-17_openj9-0.1"), prerelease := false,
      assets := [] }
    { name := str ("ibm-semeru-certified-jdk_x64_linux_17.0.1.tar.gz"),
      browser_download_url := str ("u") } _ rfl

/-- C8: with fixed collaborator inputs, running a vendor's fetch twice
yields the same final set (idempotent merge into the
structural-equality-keyed set), and permuting the releases (per slug) or
the assets of a release leaves the final deduplicated set unchanged
(order-independence). -/
theorem C8_fetch_idempotent_order_independent (g : Str → Option Str)
    (rels rels' : List GitHubRelease) (init s : Finset JvmData)
    (f f' : Str → List GitHubRelease) (rel : GitHubRelease)
    (assets' : List GitHubAsset) :
    (GraalVM.fetch_data (.ok rels) g init = (s, .ok ()) →
      GraalVM.fetch_data (.ok rels) g s = (s, .ok ())) ∧
    (rels.Perm rels' →
      GraalVM.fetch_data (.ok rels) g init =
        GraalVM.fetch_data (.ok rels') g init) ∧
    (Semeru.fetch_data (fun slug => .ok (f slug)) g init = (s, .ok ()) →
      Semeru.fetch_data (fun slug => .ok (f slug)) g s = (s, .ok ())) ∧
    ((∀ slug, (f slug).Perm (f' slug)) →
      Semeru.fetch_data (fun slug => .ok (f slug)) g init =
        Semeru.fetch_data (fun slug => .ok (f' slug)) g init) ∧
    (rel.assets.Perm assets' →
      (GraalVM.releaseData g rel).toFinset =
        (GraalVM.releaseData g { rel with assets := assets' }).toFinset ∧
      (Semeru.releaseData g rel).toFinset =
        (Semeru.releaseData g { rel with assets := assets' }).toFinset) := by
  refine ⟨?_, ?_, ?_, ?_, ?_⟩
  · intro h
    simp only [GraalVM.fetch_data] at h ⊢
    injection h with h1 h2
    subst h1
    rw [Finset.union_assoc, Finset.union_self]
  · intro hp
    have hperm : (GraalVM.collectData g rels).Perm
        (GraalVM.collectData g rels') := by
      unfold GraalVM.collectData
      exact List.Perm.flatMap_right _ hp
    simp only [GraalVM.fetch_data, List.toFinset_eq_of_perm _ _ hperm]
  · intro h
    rw [Semeru.fetch_data] at h ⊢
    have hsub := semeru_fetchLoop_subset _ g _ _ _ h
    have h2 := semeru_fetchLoop_union _ g _ init s s h
    rwa [Finset.union_eq_right.mpr hsub, Finset.union_self] at h2
  · intro hp
    rw [Semeru.fetch_data, Semeru.fetch_data]
    exact semeru_fetchLoop_perm g f f' hp _ init
  · intro hp
    constructor
    · apply List.toFinset_eq_of_perm
      unfold GraalVM.releaseData
      exact List.Perm.filterMap _ (hp.filter _)
    · apply List.toFinset_eq_of_perm
      unfold Semeru.releaseData
      exact List.Perm.filterMap _ (hp.filter _)

/-- C8 (witness): with empty collaborator inputs, a second GraalVM fetch
and a second Semeru fetch leave the result set unchanged. -/
theorem C8_witness :
    GraalVM.fetch_data (.ok []) (fun _ => none) ∅ = (∅, .ok ()) ∧
    Semeru.fetch_data (fun slug => .ok ((fun _ => []) slug))
      (fun _ => none) ∅ = (∅, .ok ()) := by
  have hg : GraalVM.fetch_data (.ok []) (fun _ => none) ∅ = (∅, .ok ()) := by
    simp [GraalVM.fetch_data, GraalVM.collectData]
  have hs : Semeru.fetch_data (fun slug => .ok ((fun _ => []) slug))
      (fun _ => none) ∅ = (∅, .ok ()) := by
    simp [Semeru.fetch_data, Semeru.versionLabels, Semeru.fetchLoop,
      Semeru.slugData]
  refine ⟨?_, ?_⟩
  · exact (C8_fetch_idempotent_order_independent (fun _ => none) [] [] ∅ ∅
      (fun _ => []) (fun _ => [])
      { tag_name := [], prerelease := false, assets := [] } []).1 hg
  · exact (C8_fetch_idempotent_order_independent (fun _ => none) [] [] ∅ ∅
      (fun _ => []) (fun _ => [])
      { tag_name := [], prerelease := false, assets := [] } []).2.2.1 hs
